import Mathlib

/-!
# Run gate and CI wait of `github-action-merge-from-main`

A shallow embedding of `src/main.go`: the run gate `ConfirmShouldRun`, the configuration
loader `loadConfig`, the commit message written by `CommitAndOpenPR`, the polling loop
`WaitForCI` and the merge step `Merge`, with `MergePullRequest` of `src/github.go`.

Modelling conventions.
* A Go `string` is a Lean `String`, read as its sequence of code points. The strings
  compared here are UTF-8 text, on which byte-wise prefix and substring tests agree with the
  code-point-wise ones.
* A Go `error` is a value of `GoError`, which keeps the format string and the argument of
  `fmt.Errorf` unrendered.
* `time.Duration` is an `Int` count of nanoseconds.
* Calls that leave the process (`git`, the GitHub API, the clock) are answered by the
  arguments of the embedded function: the result of `latestCommitMessage()`, the answer of the
  k-th `GetCombinedStatus` call, the value that `time.Since(start)` reads after the sleeps made
  so far.
-/

namespace MergeFromMain

/-! ## Go library functions used by the source -/

/-- Go errors as built in `main.go` and `github.go`: `errors.New(msg)`, `fmt.Errorf(format, s)`
with a string argument, `fmt.Errorf(format, d)` with a duration argument,
`fmt.Errorf(format, err)` with a `%w` verb, which wraps `err`, and `fmt.Errorf(format, n, s)`
with an integer and a string argument. -/
inductive GoError where
  | New (msg : String)
  | ErrorfS (format : String) (arg : String)
  | ErrorfD (format : String) (arg : Int)
  | ErrorfW (format : String) (err : GoError)
  | ErrorfIS (format : String) (n : Int) (arg : String)
  deriving DecidableEq, Repr

/-- A Go `time.Duration`, in nanoseconds. -/
abbrev Duration := Int

/-- The Go constant `time.Millisecond`. -/
def Millisecond : Duration := 1000000

/-- The Go constant `time.Second`. -/
def Second : Duration := 1000 * Millisecond

/-- The Go constant `time.Minute`. -/
def Minute : Duration := 60 * Second

/-- Go `strings.HasPrefix(s, pre)`. -/
def HasPrefix (s pre : String) : Bool :=
  pre.data.isPrefixOf s.data

/-- Search of `sub` at every position of `s`, the work of Go `strings.Index`. -/
def indexFrom (sub : List Char) : List Char → Bool
  | [] => sub.isPrefixOf []
  | c :: cs => sub.isPrefixOf (c :: cs) || indexFrom sub cs

/-- Go `strings.Contains(s, substr)`. -/
def Contains (s substr : String) : Bool :=
  indexFrom substr.data s.data

/-- Go `unicode.IsSpace`. -/
def IsSpace (c : Char) : Bool :=
  let n := c.toNat
  (9 ≤ n && n ≤ 13) || n == 32 || n == 0x85 || n == 0xA0 || n == 0x1680 ||
  (0x2000 ≤ n && n ≤ 0x200A) || n == 0x2028 || n == 0x2029 || n == 0x202F ||
  n == 0x205F || n == 0x3000

/-- Go `strings.TrimSpace(s)`. -/
def TrimSpace (s : String) : String :=
  ⟨((s.data.dropWhile IsSpace).reverse.dropWhile IsSpace).reverse⟩

/-- The pieces of `s` between occurrences of the character `sep`; `cur` holds the piece being
read, reversed. -/
def splitLoop (sep : Char) : List Char → List Char → List String
  | [], cur => [⟨cur.reverse⟩]
  | c :: cs, cur =>
    if c = sep then ⟨cur.reverse⟩ :: splitLoop sep cs [] else splitLoop sep cs (c :: cur)

/-- Go `strings.Split(s, sep)` for a separator of one character, which is what every call in
`main.go` passes (`"\n"`, `","`, `"/"`). -/
def Split (s : String) (sep : Char) : List String :=
  splitLoop sep s.data []

/-! ## Configuration -/

/-- The `config` struct of `main.go`. -/
structure config where
  AccessToken : String
  CommitPrefix : String
  Commands : List String
  RepoOwner : String
  RepoName : String
  BaseBranch : String
  IgnorePrefixes : List String
  RunOnPrefixes : List String
  RunOnContains : List String
  WaitSeconds : Int
  CIWaitTimeout : Duration
  CIWaitInterval : Duration
  PushRemote : String
  deriving DecidableEq, Repr

/-- The zero value `config{}`. -/
def config.zero : config :=
  ⟨"", "", [], "", "", "", [], [], [], 0, 0, 0, ""⟩

/-- `firstNonEmpty(values...)`: the first value that is not blank. -/
def firstNonEmpty : List String → String
  | [] => ""
  | v :: rest => if TrimSpace v ≠ "" then v else firstNonEmpty rest

/-- The inner loop of `splitCommands` over the comma-separated segments of one line,
appending to `cmds`. -/
def splitCommands.segments : List String → List String → List String
  | [], cmds => cmds
  | segment :: rest, cmds =>
    let c := TrimSpace segment
    if c ≠ "" then splitCommands.segments rest (cmds ++ [c])
    else splitCommands.segments rest cmds

/-- The outer loop of `splitCommands` over the lines. -/
def splitCommands.lines : List String → List String → List String
  | [], cmds => cmds
  | line :: rest, cmds =>
    splitCommands.lines rest (splitCommands.segments (Split line ',') cmds)

/-- `splitCommands(raw)`. -/
def splitCommands (raw : String) : List String :=
  splitCommands.lines (Split raw '\n') []

/-- The loop of `parsePrefixes` over the comma-separated parts, appending to `prefixes`. -/
def parsePrefixes.loop : List String → List String → List String
  | [], prefixes => prefixes
  | p :: rest, prefixes =>
    let s := TrimSpace p
    if s ≠ "" then parsePrefixes.loop rest (prefixes ++ [s])
    else parsePrefixes.loop rest prefixes

/-- `parsePrefixes(raw)`; the `nil` slice is the empty list. -/
def parsePrefixes (raw : String) : List String :=
  if TrimSpace raw = "" then []
  else parsePrefixes.loop (Split raw ',') []

/-- `loadConfig()`, with `getenv` standing for `os.Getenv`. -/
def loadConfig (getenv : String → String) : Except GoError config :=
  let token := TrimSpace (firstNonEmpty
    [getenv "INPUT_GITHUB_ACCESS_TOKEN", getenv "GITHUB_ACCESS_TOKEN"])
  if token = "" then .error (.New "github access token is required")
  else
    let commitPrefix := TrimSpace (getenv "INPUT_COMMIT_PREFIX")
    let commitPrefix := if commitPrefix = "" then "[Auto Merge]" else commitPrefix
    let commandsRaw := getenv "INPUT_COMMANDS"
    let commands := splitCommands commandsRaw
    if commands.length = 0 then .error (.New "at least one command is required")
    else
      let repo := getenv "GITHUB_REPOSITORY"
      let parts := Split repo '/'
      match parts with
      | [owner, name] =>
        let baseBranch := getenv "GITHUB_REF_NAME"
        let baseBranch := if baseBranch = "" then "main" else baseBranch
        let prefixes := ["Auto Merge", "[Auto Merge]:", commitPrefix]
        let extraPrefixes := parsePrefixes (getenv "PREFIXES_TO_IGNORE")
        let prefixes := prefixes ++ extraPrefixes
        let runPrefixes := parsePrefixes (getenv "PREFIXES_TO_RUN_ON")
        let runContains := parsePrefixes (getenv "CONTAINS_TO_RUN_ON")
        .ok {
          AccessToken := token
          CommitPrefix := commitPrefix
          Commands := commands
          RepoOwner := owner
          RepoName := name
          BaseBranch := baseBranch
          IgnorePrefixes := prefixes
          RunOnPrefixes := runPrefixes
          RunOnContains := runContains
          WaitSeconds := 30
          CIWaitTimeout := 15 * Minute
          CIWaitInterval := 10 * Second
          PushRemote := "" }
      | _ => .error (.ErrorfS "invalid GITHUB_REPOSITORY: %s" repo)

/-- The commit message of `CommitAndOpenPR`:
`fmt.Sprintf("%s Merge from %s", cfg.CommitPrefix, cfg.BaseBranch)`. -/
def commitMessage (cfg : config) : String :=
  cfg.CommitPrefix ++ " Merge from " ++ cfg.BaseBranch

/-! ## The run gate -/

/-- The first loop of `ConfirmShouldRun`, over `cfg.IgnorePrefixes`: `true` when the loop
leaves the function through `return false, nil`. -/
def ConfirmShouldRun.ignored (msg : String) : List String → Bool
  | [] => false
  | pre :: rest =>
    if pre = "" then ConfirmShouldRun.ignored msg rest
    else if HasPrefix msg pre then true
    else ConfirmShouldRun.ignored msg rest

/-- The second loop of `ConfirmShouldRun`, over `cfg.RunOnPrefixes`: the value of
`prefixMatch` when the loop ends, from its value on entry. -/
def ConfirmShouldRun.prefixLoop (msg : String) : List String → Bool → Bool
  | [], prefixMatch => prefixMatch
  | pre :: rest, prefixMatch =>
    if pre = "" then ConfirmShouldRun.prefixLoop msg rest prefixMatch
    else if HasPrefix msg pre then true
    else ConfirmShouldRun.prefixLoop msg rest prefixMatch

/-- The third loop of `ConfirmShouldRun`, over `cfg.RunOnContains`: the value of
`containsMatch` when the loop ends, from its value on entry. -/
def ConfirmShouldRun.containsLoop (msg : String) : List String → Bool → Bool
  | [], containsMatch => containsMatch
  | marker :: rest, containsMatch =>
    if marker = "" then ConfirmShouldRun.containsLoop msg rest containsMatch
    else if Contains msg marker then true
    else ConfirmShouldRun.containsLoop msg rest containsMatch

/-- `ConfirmShouldRun(cfg)`; `latest` is what `latestCommitMessage()` returns. The Go pair
`(bool, error)` is a pair whose error is `none` for `nil`. -/
def ConfirmShouldRun (latest : Except GoError String) (cfg : config) : Bool × Option GoError :=
  match latest with
  | .error err => (false, some err)
  | .ok msg =>
    if ConfirmShouldRun.ignored msg cfg.IgnorePrefixes then (false, none)
    else
      let prefixMatch := decide (cfg.RunOnPrefixes.length = 0)
      let prefixMatch := ConfirmShouldRun.prefixLoop msg cfg.RunOnPrefixes prefixMatch
      let containsMatch := decide (cfg.RunOnContains.length = 0)
      let containsMatch := ConfirmShouldRun.containsLoop msg cfg.RunOnContains containsMatch
      (prefixMatch && containsMatch, none)

/-- The run-gate decision in the words of the specification, clause `suppressed`: some
non-empty entry of the ignore list is a prefix of the message. -/
def specSuppressed (m : String) (cfg : config) : Prop :=
  ∃ p ∈ cfg.IgnorePrefixes, p ≠ "" ∧ p.data <+: m.data

/-- The run-gate decision in the words of the specification, clause `prefixMatch`: true if
the run-on prefix list is empty, otherwise true iff some non-empty entry is a prefix of the
message. -/
def specPrefixMatch (m : String) (cfg : config) : Prop :=
  cfg.RunOnPrefixes = [] ∨ ∃ p ∈ cfg.RunOnPrefixes, p ≠ "" ∧ p.data <+: m.data

/-- The run-gate decision in the words of the specification, clause `substringMatch`: true
if the run-on substring list is empty, otherwise true iff some non-empty entry occurs in the
message. -/
def specSubstringMatch (m : String) (cfg : config) : Prop :=
  cfg.RunOnContains = [] ∨ ∃ s ∈ cfg.RunOnContains, s ≠ "" ∧ s.data <:+: m.data

/-! ## The latest commit message, as git prints it -/

/-- The characters that git counts as white space: tab, line feed, carriage return and
blank. -/
def gitIsSpace (c : Char) : Bool :=
  c = '\t' || c = '\n' || c = '\r' || c = ' '

/-- A line that holds white space only. -/
def gitIsBlankLine (line : String) : Bool :=
  line.data.all gitIsSpace

/-- A line without its trailing white space. -/
def gitTrimRight (line : String) : String :=
  ⟨(line.data.reverse.dropWhile gitIsSpace).reverse⟩

/-- The lines joined by one blank. -/
def gitJoin : List String → String
  | [] => ""
  | [line] => line
  | line :: rest => line ++ " " ++ gitJoin rest

/-- The subject of a commit message, which is what the format `%s` of `git log` prints: the
lines of its first paragraph (the leading blank lines skipped, up to the next blank line),
each without its trailing white space, joined by one blank. -/
def gitSubject (message : String) : String :=
  let lines := Split message '\n'
  let paragraph := (lines.dropWhile gitIsBlankLine).takeWhile (fun l => !gitIsBlankLine l)
  gitJoin (paragraph.map gitTrimRight)

/-- The output of `git log -1 --pretty=%s` when the last commit was made with
`git commit -m message`: the subject and a line feed. -/
def gitLogSubject (message : String) : String :=
  gitSubject message ++ "\n"

/-- `latestCommitMessage()`; `out` is what `exec.Command("git", "log", "-1",
"--pretty=%s").Output()` returns. -/
def latestCommitMessage (out : Except GoError String) : Except GoError String :=
  match out with
  | .error err => .error (.ErrorfW "failed to get latest commit message: %w" err)
  | .ok out => .ok (TrimSpace out)

/-- An environment of the action whose commit prefix holds a line feed. -/
def newlineEnv (k : String) : String :=
  if k = "GITHUB_ACCESS_TOKEN" then "t"
  else if k = "INPUT_COMMANDS" then "make gen"
  else if k = "GITHUB_REPOSITORY" then "o/r"
  else if k = "INPUT_COMMIT_PREFIX" then "[bot]\nnightly"
  else ""

/-- The config that `loadConfig` builds from `newlineEnv`. -/
def newlineConfig : config where
  AccessToken := "t"
  CommitPrefix := "[bot]\nnightly"
  Commands := ["make gen"]
  RepoOwner := "o"
  RepoName := "r"
  BaseBranch := "main"
  IgnorePrefixes := ["Auto Merge", "[Auto Merge]:", "[bot]\nnightly"]
  RunOnPrefixes := []
  RunOnContains := []
  WaitSeconds := 30
  CIWaitTimeout := 15 * Minute
  CIWaitInterval := 10 * Second
  PushRemote := ""

/-! ## The CI wait -/

/-- The fields of `CombinedStatus` (`github_models.go`) that are plain data; `WaitForCI` reads
`State` only. -/
structure CombinedStatus where
  State : String
  SHA : String
  TotalCount : Int
  CommitURL : String
  URL : String
  deriving DecidableEq, Repr

/-- The GitHub gateway as `main.go` sees it. `GetCombinedStatus k sha` is what the call
`client.GetCombinedStatus(sha)` returns when `k` such calls were made before it;
`MergePullRequest` is the pair `(merged, err)` returned by `client.MergePullRequest`. -/
structure GitHubClient where
  GetCombinedStatus : Nat → String → Except GoError CombinedStatus
  MergePullRequest : Int → String → String → Bool × Option GoError

/-- What `WaitForCI` has done and returned: its `error` (`none` for `nil`), the number of
`GetCombinedStatus` calls, and the arguments of its `time.Sleep` calls, latest first. -/
structure WaitResult where
  err : Option GoError
  queries : Nat
  slept : List Duration
  deriving DecidableEq, Repr

/-- The local `timeout` of `WaitForCI`. -/
def WaitForCI.timeout (cfg : config) : Duration :=
  if cfg.CIWaitTimeout ≤ 0 then 15 * Minute else cfg.CIWaitTimeout

/-- The local `interval` of `WaitForCI`. -/
def WaitForCI.interval (cfg : config) : Duration :=
  if cfg.CIWaitInterval ≤ 0 then 10 * Second else cfg.CIWaitInterval

/-- The `for` loop of `WaitForCI`, run for at most `fuel` iterations (`none` when they do not
suffice). `queries` counts the status calls made so far and `slept` lists the sleeps made so
far. `ToLower` is Go `strings.ToLower`; `Since slept` is the value `time.Since(start)` reads
after the sleeps `slept`. -/
def WaitForCI.loop (ToLower : String → String) (Since : List Duration → Duration)
    (client : GitHubClient) (sha : String) (timeout interval : Duration) :
    Nat → Nat → List Duration → Option WaitResult
  | 0, _, _ => none
  | fuel + 1, queries, slept =>
    match client.GetCombinedStatus queries sha with
    | .error err =>
      some ⟨some (.ErrorfW "failed to fetch combined status: %w" err), queries + 1, slept⟩
    | .ok status =>
      let state := ToLower status.State
      if state = "success" then some ⟨none, queries + 1, slept⟩
      else if state = "failure" ∨ state = "error" then
        some ⟨some (.ErrorfS "ci reported %s" state), queries + 1, slept⟩
      else if Since slept > timeout then
        some ⟨some (.ErrorfD "ci did not finish within %s" timeout), queries + 1, slept⟩
      else
        WaitForCI.loop ToLower Since client sha timeout interval fuel (queries + 1)
          (interval :: slept)

/-- `WaitForCI(cfg, client, sha)`, with at most `fuel` iterations of its loop. -/
def WaitForCI (ToLower : String → String) (Since : List Duration → Duration) (fuel : Nat)
    (cfg : config) (client : GitHubClient) (sha : String) : Option WaitResult :=
  WaitForCI.loop ToLower Since client sha (WaitForCI.timeout cfg) (WaitForCI.interval cfg)
    fuel 0 []

/-- Lower-casing of the ASCII letters, which is what Go `strings.ToLower` does on ASCII
text. -/
def asciiToLower (s : String) : String :=
  ⟨s.data.map Char.toLower⟩

/-- A clock that advances only during sleeps, by exactly the time asked for. -/
def sleepClock (slept : List Duration) : Duration :=
  slept.sum

/-- A gateway that answers every status query with the state label `state`. -/
def constClient (state : String) : GitHubClient where
  GetCombinedStatus := fun _ sha => .ok ⟨state, sha, 0, "", ""⟩
  MergePullRequest := fun _ _ _ => (true, none)

/-- A gateway that answers with the state label `state` until `n` queries were made, and with
the error `err` from then on. -/
def failingClient (state : String) (n : Nat) (err : GoError) : GitHubClient where
  GetCombinedStatus := fun k sha => if k < n then .ok ⟨state, sha, 0, "", ""⟩ else .error err
  MergePullRequest := fun _ _ _ => (true, none)

/-- A gateway that answers the first `n` status queries with the state label `first` and
every later one with the state label `state`. -/
def switchClient (first : String) (n : Nat) (state : String) : GitHubClient where
  GetCombinedStatus := fun k sha =>
    if k < n then .ok ⟨first, sha, 0, "", ""⟩ else .ok ⟨state, sha, 0, "", ""⟩
  MergePullRequest := fun _ _ _ => (true, none)

/-! ## The merge -/

/-- The fields of `PullRequest` (`github_models.go`) that `Merge` reads. -/
structure PullRequest where
  Number : Int
  Title : String
  deriving DecidableEq, Repr

/-- The `MergeRequest` struct of `github_models.go`. -/
structure MergeRequest where
  CommitTitle : String
  CommitMessage : String
  Sha : String
  MergeMethod : String
  deriving DecidableEq, Repr

/-- The `MergeResponse` struct of `github_models.go`. -/
structure MergeResponse where
  Sha : String
  Merged : Bool
  Message : String
  deriving DecidableEq, Repr

/-- What the libraries answer during one call of `MergePullRequest` (`github.go`): the error
of `json.Marshal(mergeReq)`, the error of `http.NewRequest`, the result of `c.client.Do(req)`
for the pull request number and request body, as the status code and the body read by
`io.ReadAll`, and the result of `json.Unmarshal` on that body. -/
structure MergeExchange where
  Marshal : MergeRequest → Option GoError
  NewRequest : Int → Option GoError
  Do : Int → MergeRequest → Except GoError (Int × String)
  Unmarshal : String → Except GoError MergeResponse

/-- `(c *GitHubClient) MergePullRequest(prNumber, prTitle, prMessage)` of `github.go`, as the
pair `(merged, err)`. -/
def MergePullRequest (x : MergeExchange) (prNumber : Int) (prTitle prMessage : String) :
    Bool × Option GoError :=
  let mergeReq : MergeRequest :=
    { CommitTitle := prTitle, CommitMessage := prMessage, Sha := "", MergeMethod := "squash" }
  match x.Marshal mergeReq with
  | some err => (false, some (.ErrorfW "failed to marshal request: %w" err))
  | none =>
    match x.NewRequest prNumber with
    | some err => (false, some (.ErrorfW "failed to create request: %w" err))
    | none =>
      match x.Do prNumber mergeReq with
      | .error err => (false, some (.ErrorfW "failed to execute request: %w" err))
      | .ok (statusCode, body) =>
        if statusCode < 200 ∨ statusCode ≥ 300 then
          (false, some (.ErrorfIS "GitHub API returned status %d: %s" statusCode body))
        else
          match x.Unmarshal body with
          | .error err => (false, some (.ErrorfW "failed to decode response: %w" err))
          | .ok mergeResp => (mergeResp.Merged, none)

/-- The gateway whose merge call is `MergePullRequest` of `github.go` over the exchange `x`;
`status` answers the status queries. -/
def GitHubClient.ofExchange (x : MergeExchange)
    (status : Nat → String → Except GoError CombinedStatus) : GitHubClient where
  GetCombinedStatus := status
  MergePullRequest := MergeFromMain.MergePullRequest x

/-- What `Merge` has done and returned: its `error` (`none` for `nil`) and the arguments of its
calls of `client.MergePullRequest`, in order. -/
structure MergeResult where
  err : Option GoError
  calls : List (Int × String × String)
  deriving DecidableEq, Repr

/-- `Merge(cfg, client, pr)`. -/
def Merge (cfg : config) (client : GitHubClient) (pr : PullRequest) : MergeResult :=
  let commitTitle := pr.Title
  let commitMessage := cfg.CommitPrefix ++ " Squash merge by automation"
  let calls := [(pr.Number, commitTitle, commitMessage)]
  match client.MergePullRequest pr.Number commitTitle commitMessage with
  | (_, some err) => ⟨some err, calls⟩
  | (merged, none) =>
    if !merged then ⟨some (.New "merge API returned false"), calls⟩
    else ⟨none, calls⟩

/-- A gateway whose merge call answers the pair `answer`. -/
def mergeClient (answer : Bool × Option GoError) : GitHubClient where
  GetCombinedStatus := fun _ sha => .ok ⟨"success", sha, 0, "", ""⟩
  MergePullRequest := fun _ _ _ => answer

/-- A pull request, number 7. -/
def examplePR : PullRequest :=
  ⟨7, "[bot] Merge from main"⟩

/-- An environment of the action: a token, one command, the repository and a commit prefix
written with blanks around it. -/
def exampleEnv (k : String) : String :=
  if k = "GITHUB_ACCESS_TOKEN" then "t"
  else if k = "INPUT_COMMANDS" then "make gen"
  else if k = "GITHUB_REPOSITORY" then "o/r"
  else if k = "INPUT_COMMIT_PREFIX" then " [bot] "
  else ""

/-- The config that `loadConfig` builds from `exampleEnv`. -/
def exampleConfig : config where
  AccessToken := "t"
  CommitPrefix := "[bot]"
  Commands := ["make gen"]
  RepoOwner := "o"
  RepoName := "r"
  BaseBranch := "main"
  IgnorePrefixes := ["Auto Merge", "[Auto Merge]:", "[bot]"]
  RunOnPrefixes := []
  RunOnContains := []
  WaitSeconds := 30
  CIWaitTimeout := 15 * Minute
  CIWaitInterval := 10 * Second
  PushRemote := ""

/-- A config with the CI timeout 50ms and the poll interval 10ms. -/
def pendingConfig : config :=
  { config.zero with CIWaitTimeout := 50 * Millisecond, CIWaitInterval := 10 * Millisecond }

/-- A config with the CI timeout 5ms and the poll interval 10ms: the deadline has passed
after the first sleep. -/
def shortConfig : config :=
  { config.zero with CIWaitTimeout := 5 * Millisecond, CIWaitInterval := 10 * Millisecond }

/-! ## Lemmas on the library functions and the loops of the run gate -/

theorem HasPrefix_iff (s p : String) : HasPrefix s p = true ↔ p.data <+: s.data := by
  unfold HasPrefix
  exact List.isPrefixOf_iff_prefix

theorem indexFrom_iff (sub : List Char) (s : List Char) :
    indexFrom sub s = true ↔ sub <:+: s := by
  induction s with
  | nil =>
    simp only [indexFrom, List.isPrefixOf_iff_prefix, List.prefix_nil, List.infix_nil]
  | cons c cs ih =>
    simp only [indexFrom, Bool.or_eq_true, List.isPrefixOf_iff_prefix, ih, List.infix_cons_iff]

theorem Contains_iff (s sub : String) : Contains s sub = true ↔ sub.data <:+: s.data := by
  unfold Contains
  exact indexFrom_iff _ _

theorem ignored_iff (m : String) (l : List String) :
    ConfirmShouldRun.ignored m l = true ↔ ∃ p ∈ l, p ≠ "" ∧ HasPrefix m p = true := by
  induction l with
  | nil => simp [ConfirmShouldRun.ignored]
  | cons a l ih =>
    unfold ConfirmShouldRun.ignored
    by_cases ha : a = ""
    · simp [ha, ih]
    · by_cases hp : HasPrefix m a = true
      · simp only [ha, hp, if_true, if_false, true_iff]
        exact ⟨a, List.mem_cons_self _ _, ha, hp⟩
      · simp [ha, hp, ih]

theorem prefixLoop_iff (m : String) (l : List String) (b : Bool) :
    ConfirmShouldRun.prefixLoop m l b = true ↔
      b = true ∨ ∃ p ∈ l, p ≠ "" ∧ HasPrefix m p = true := by
  induction l with
  | nil => simp [ConfirmShouldRun.prefixLoop]
  | cons a l ih =>
    unfold ConfirmShouldRun.prefixLoop
    by_cases ha : a = ""
    · simp [ha, ih]
    · by_cases hp : HasPrefix m a = true
      · simp only [ha, hp, if_true, if_false, true_iff]
        exact Or.inr ⟨a, List.mem_cons_self _ _, ha, hp⟩
      · simp [ha, hp, ih]

theorem containsLoop_iff (m : String) (l : List String) (b : Bool) :
    ConfirmShouldRun.containsLoop m l b = true ↔
      b = true ∨ ∃ s ∈ l, s ≠ "" ∧ Contains m s = true := by
  induction l with
  | nil => simp [ConfirmShouldRun.containsLoop]
  | cons a l ih =>
    unfold ConfirmShouldRun.containsLoop
    by_cases ha : a = ""
    · simp [ha, ih]
    · by_cases hp : Contains m a = true
      · simp only [ha, hp, if_true, if_false, true_iff]
        exact Or.inr ⟨a, List.mem_cons_self _ _, ha, hp⟩
      · simp [ha, hp, ih]

theorem exists_nonempty_filter (l : List String) (P : String → Prop) :
    (∃ p ∈ l.filter (fun s => decide (s ≠ "")), p ≠ "" ∧ P p) ↔ ∃ p ∈ l, p ≠ "" ∧ P p := by
  constructor
  · rintro ⟨p, hp, hne, hP⟩
    exact ⟨p, (List.mem_filter.mp hp).1, hne, hP⟩
  · rintro ⟨p, hp, hne, hP⟩
    exact ⟨p, List.mem_filter.mpr ⟨hp, by simpa using hne⟩, hne, hP⟩

theorem exists_nonempty_congr {l l' : List String} (P : String → Prop)
    (h : l.filter (fun s => decide (s ≠ "")) = l'.filter (fun s => decide (s ≠ ""))) :
    (∃ p ∈ l, p ≠ "" ∧ P p) ↔ ∃ p ∈ l', p ≠ "" ∧ P p := by
  rw [← exists_nonempty_filter l, ← exists_nonempty_filter l', h]

theorem length_eq_zero_congr {l l' : List String} (h : l = [] ↔ l' = []) :
    decide (l.length = 0) = decide (l'.length = 0) := by
  simp only [List.length_eq_zero]
  exact decide_eq_decide.mpr h

theorem loadConfig_ok {getenv : String → String} {cfg : config}
    (h : loadConfig getenv = .ok cfg) :
    cfg.CommitPrefix ≠ "" ∧ cfg.CommitPrefix ∈ cfg.IgnorePrefixes := by
  unfold loadConfig at h
  simp only at h
  split at h
  · cases h
  · split at h
    · cases h
    · split at h
      · injection h with h
        subst h
        refine ⟨?_, by simp⟩
        simp only
        split
        · decide
        · assumption
      · cases h

/-! ## The run gate: theorems -/

/-- C1: whenever some non-empty entry of `IgnorePrefixes` is a prefix of the latest commit
message `m`, `ConfirmShouldRun` returns `false` with no error, whatever the other fields of the
config hold. -/
theorem ConfirmShouldRun_ignore_prefix (m : String) (cfg : config) (p : String)
    (hmem : p ∈ cfg.IgnorePrefixes) (hne : p ≠ "") (hpre : p.data <+: m.data) :
    ConfirmShouldRun (.ok m) cfg = (false, none) := by
  have h : ConfirmShouldRun.ignored m cfg.IgnorePrefixes = true :=
    (ignored_iff m _).mpr ⟨p, hmem, hne, (HasPrefix_iff m p).mpr hpre⟩
  simp only [ConfirmShouldRun, h, if_true]

/-- C1, at the input of the claim: the message "Auto Merge: regen" with the ignore list
`["Auto Merge"]`. -/
theorem ConfirmShouldRun_ignore_prefix_witness :
    ConfirmShouldRun (.ok "Auto Merge: regen")
      { config.zero with IgnorePrefixes := ["Auto Merge"] } = (false, none) :=
  ConfirmShouldRun_ignore_prefix "Auto Merge: regen"
    { config.zero with IgnorePrefixes := ["Auto Merge"] } "Auto Merge"
    (by decide) (by decide) ((HasPrefix_iff _ _).mp (by decide))

/-- For every config returned by `loadConfig` and every base branch, `CommitPrefix` is
non-empty, belongs to `IgnorePrefixes` and is a prefix of the string that `CommitAndOpenPR`
hands to `git commit -m`, and `ConfirmShouldRun` returns `false` with no error when
`latestCommitMessage()` returns that very string. -/
theorem loadConfig_commitMessage_rejected (getenv : String → String) (cfg : config)
    (h : loadConfig getenv = .ok cfg) (base : String) :
    cfg.CommitPrefix ≠ "" ∧ cfg.CommitPrefix ∈ cfg.IgnorePrefixes ∧
      cfg.CommitPrefix.data <+: (commitMessage { cfg with BaseBranch := base }).data ∧
      ConfirmShouldRun (.ok (commitMessage { cfg with BaseBranch := base })) cfg =
        (false, none) := by
  obtain ⟨hne, hmem⟩ := loadConfig_ok h
  have hpre : cfg.CommitPrefix.data <+: (commitMessage { cfg with BaseBranch := base }).data := by
    simp only [commitMessage, String.data_append, List.append_assoc]
    exact List.prefix_append _ _
  have hrun : ConfirmShouldRun.ignored (commitMessage { cfg with BaseBranch := base })
      cfg.IgnorePrefixes = true :=
    (ignored_iff _ _).mpr ⟨cfg.CommitPrefix, hmem, hne, (HasPrefix_iff _ _).mpr hpre⟩
  refine ⟨hne, hmem, hpre, ?_⟩
  simp only [ConfirmShouldRun, hrun, if_true]

/-- At an environment holding a token, one command, a repository and a custom commit prefix
of one line: the config is loaded, and the string handed to `git commit -m` for the base
branch `main` is rejected. -/
theorem loadConfig_commitMessage_rejected_witness :
    loadConfig exampleEnv = .ok exampleConfig ∧
      ConfirmShouldRun (.ok "[bot] Merge from main") exampleConfig = (false, none) :=
  ⟨rfl, (loadConfig_commitMessage_rejected exampleEnv exampleConfig rfl "main").2.2.2⟩

/-- C2 fails on the code: with the commit prefix "[bot]\nnightly", `loadConfig` returns a
config whose `CommitPrefix` is non-empty, belongs to `IgnorePrefixes` and is a prefix of the
message that `CommitAndOpenPR` commits, but `git log -1 --pretty=%s` prints the subject of
that commit with the line feed folded into a blank, no ignore entry is a prefix of it, and
`ConfirmShouldRun` of the next run returns `true`. -/
theorem ConfirmShouldRun_own_commit_runs :
    loadConfig newlineEnv = .ok newlineConfig ∧
      newlineConfig.CommitPrefix ≠ "" ∧
      newlineConfig.CommitPrefix ∈ newlineConfig.IgnorePrefixes ∧
      commitMessage newlineConfig = "[bot]\nnightly Merge from main" ∧
      HasPrefix (commitMessage newlineConfig) newlineConfig.CommitPrefix = true ∧
      latestCommitMessage (.ok (gitLogSubject (commitMessage newlineConfig))) =
        .ok "[bot] nightly Merge from main" ∧
      ConfirmShouldRun (latestCommitMessage (.ok (gitLogSubject (commitMessage newlineConfig))))
        newlineConfig = (true, none) :=
  ⟨rfl, by decide, by decide, by decide, by decide, rfl, by decide⟩

/-- C3 as stated fails: for the message "fix typo", a `RunOnPrefixes` list holding only the
empty string makes `ConfirmShouldRun` return `false`, while the empty list makes it return
`true`. -/
theorem ConfirmShouldRun_empty_entry_counterexample :
    ConfirmShouldRun (.ok "fix typo") { config.zero with RunOnPrefixes := [""] } =
      (false, none) ∧
    ConfirmShouldRun (.ok "fix typo") { config.zero with RunOnPrefixes := [] } =
      (true, none) := by
  decide

/-- C3, amended: two configs whose three rule lists differ only by empty-string entries give
the same result of `ConfirmShouldRun`, provided neither `RunOnPrefixes` nor `RunOnContains` is
empty in one config and not in the other. -/
theorem ConfirmShouldRun_empty_entries (latest : Except GoError String) (cfg cfg' : config)
    (hI : cfg.IgnorePrefixes.filter (fun s => decide (s ≠ "")) =
      cfg'.IgnorePrefixes.filter (fun s => decide (s ≠ "")))
    (hP : cfg.RunOnPrefixes.filter (fun s => decide (s ≠ "")) =
      cfg'.RunOnPrefixes.filter (fun s => decide (s ≠ "")))
    (hP0 : cfg.RunOnPrefixes = [] ↔ cfg'.RunOnPrefixes = [])
    (hC : cfg.RunOnContains.filter (fun s => decide (s ≠ "")) =
      cfg'.RunOnContains.filter (fun s => decide (s ≠ "")))
    (hC0 : cfg.RunOnContains = [] ↔ cfg'.RunOnContains = []) :
    ConfirmShouldRun latest cfg = ConfirmShouldRun latest cfg' := by
  cases latest with
  | error err => rfl
  | ok m =>
    have h1 : ConfirmShouldRun.ignored m cfg.IgnorePrefixes =
        ConfirmShouldRun.ignored m cfg'.IgnorePrefixes := by
      rw [Bool.eq_iff_iff, ignored_iff, ignored_iff]
      exact exists_nonempty_congr _ hI
    have h2 : ∀ b, ConfirmShouldRun.prefixLoop m cfg.RunOnPrefixes b =
        ConfirmShouldRun.prefixLoop m cfg'.RunOnPrefixes b := by
      intro b
      rw [Bool.eq_iff_iff, prefixLoop_iff, prefixLoop_iff, exists_nonempty_congr _ hP]
    have h3 : ∀ b, ConfirmShouldRun.containsLoop m cfg.RunOnContains b =
        ConfirmShouldRun.containsLoop m cfg'.RunOnContains b := by
      intro b
      rw [Bool.eq_iff_iff, containsLoop_iff, containsLoop_iff, exists_nonempty_congr _ hC]
    simp only [ConfirmShouldRun, h1, h2, h3, length_eq_zero_congr hP0,
      length_eq_zero_congr hC0]

/-- C3, amended, at two configs that differ by empty entries in all three lists. -/
theorem ConfirmShouldRun_empty_entries_witness :
    ConfirmShouldRun (.ok "feat: add x")
        { config.zero with
          IgnorePrefixes := ["", "Auto Merge"], RunOnPrefixes := ["feat", ""],
          RunOnContains := ["add"] } =
      ConfirmShouldRun (.ok "feat: add x")
        { config.zero with
          IgnorePrefixes := ["Auto Merge", ""], RunOnPrefixes := ["", "", "feat"],
          RunOnContains := ["", "add", ""] } :=
  ConfirmShouldRun_empty_entries _ _ _ (by decide) (by decide) (by decide) (by decide)
    (by decide)

/-- C4 as stated fails: for "fix typo" with `RunOnPrefixes = ["feat:", "fix:"]` and the two
other lists empty, `ConfirmShouldRun` does not return `true`. -/
theorem ConfirmShouldRun_fix_typo_counterexample :
    (ConfirmShouldRun (.ok "fix typo")
      { config.zero with
        IgnorePrefixes := [], RunOnPrefixes := ["feat:", "fix:"], RunOnContains := [] }).1 ≠
      true := by
  decide

/-- C4, amended: for "fix typo" with `RunOnPrefixes = ["feat:", "fix:"]` and the two other
lists empty, `ConfirmShouldRun` returns `false` with no error, whatever the remaining fields of
the config hold. -/
theorem ConfirmShouldRun_fix_typo (cfg : config) :
    ConfirmShouldRun (.ok "fix typo")
      { cfg with
        IgnorePrefixes := [], RunOnPrefixes := ["feat:", "fix:"], RunOnContains := [] } =
      (false, none) := by
  rfl

/-- C5: `ConfirmShouldRun` returns no error and its boolean is `true` exactly when the message
is not suppressed, the prefix clause holds and the substring clause holds, the three clauses
being those of the specification. -/
theorem ConfirmShouldRun_eq_spec (m : String) (cfg : config) :
    (ConfirmShouldRun (.ok m) cfg).2 = none ∧
      ((ConfirmShouldRun (.ok m) cfg).1 = true ↔
        ¬ specSuppressed m cfg ∧ specPrefixMatch m cfg ∧ specSubstringMatch m cfg) := by
  have hs : ConfirmShouldRun.ignored m cfg.IgnorePrefixes = true ↔ specSuppressed m cfg := by
    simp only [ignored_iff, HasPrefix_iff, specSuppressed]
  have hp : ∀ b, ConfirmShouldRun.prefixLoop m cfg.RunOnPrefixes b = true ↔
      b = true ∨ ∃ p ∈ cfg.RunOnPrefixes, p ≠ "" ∧ p.data <+: m.data := by
    intro b
    simp only [prefixLoop_iff, HasPrefix_iff]
  have hc : ∀ b, ConfirmShouldRun.containsLoop m cfg.RunOnContains b = true ↔
      b = true ∨ ∃ s ∈ cfg.RunOnContains, s ≠ "" ∧ s.data <:+: m.data := by
    intro b
    simp only [containsLoop_iff, Contains_iff]
  unfold ConfirmShouldRun
  by_cases h : ConfirmShouldRun.ignored m cfg.IgnorePrefixes = true
  · simp only [h, if_true, true_and]
    have := hs.mp h
    simp [this]
  · have hn : ¬ specSuppressed m cfg := fun hh => h (hs.mpr hh)
    simp only [h, if_false, Bool.false_eq_true, true_and, Bool.and_eq_true, hp, hc,
      decide_eq_true_eq, List.length_eq_zero, specPrefixMatch, specSubstringMatch, hn,
      not_false_eq_true]

/-! ## The CI wait: lemmas on one iteration of the loop -/

/-- An iteration whose status query fails ends the loop with the wrapped error. -/
theorem loop_query_error (ToLower : String → String) (Since : List Duration → Duration)
    (client : GitHubClient) (sha : String) (timeout interval : Duration) (fuel queries : Nat)
    (slept : List Duration) (err : GoError)
    (h : client.GetCombinedStatus queries sha = .error err) :
    WaitForCI.loop ToLower Since client sha timeout interval (fuel + 1) queries slept =
      some ⟨some (.ErrorfW "failed to fetch combined status: %w" err), queries + 1, slept⟩ := by
  simp only [WaitForCI.loop, h]

theorem loop_success (ToLower : String → String) (Since : List Duration → Duration)
    (client : GitHubClient) (sha : String) (timeout interval : Duration) (fuel queries : Nat)
    (slept : List Duration) (st : CombinedStatus)
    (h : client.GetCombinedStatus queries sha = .ok st) (hs : ToLower st.State = "success") :
    WaitForCI.loop ToLower Since client sha timeout interval (fuel + 1) queries slept =
      some ⟨none, queries + 1, slept⟩ := by
  simp only [WaitForCI.loop, h, hs, if_true]

theorem loop_failure (ToLower : String → String) (Since : List Duration → Duration)
    (client : GitHubClient) (sha : String) (timeout interval : Duration) (fuel queries : Nat)
    (slept : List Duration) (st : CombinedStatus)
    (h : client.GetCombinedStatus queries sha = .ok st)
    (hs : ToLower st.State = "failure" ∨ ToLower st.State = "error") :
    WaitForCI.loop ToLower Since client sha timeout interval (fuel + 1) queries slept =
      some ⟨some (.ErrorfS "ci reported %s" (ToLower st.State)), queries + 1, slept⟩ := by
  have hne : ToLower st.State ≠ "success" := by
    rcases hs with hs | hs <;> rw [hs] <;> decide
  simp only [WaitForCI.loop, h, hne, hs, if_true, if_false]

theorem loop_timeout (ToLower : String → String) (Since : List Duration → Duration)
    (client : GitHubClient) (sha : String) (timeout interval : Duration) (fuel queries : Nat)
    (slept : List Duration) (st : CombinedStatus)
    (h : client.GetCombinedStatus queries sha = .ok st)
    (h1 : ToLower st.State ≠ "success") (h2 : ToLower st.State ≠ "failure")
    (h3 : ToLower st.State ≠ "error") (ht : Since slept > timeout) :
    WaitForCI.loop ToLower Since client sha timeout interval (fuel + 1) queries slept =
      some ⟨some (.ErrorfD "ci did not finish within %s" timeout), queries + 1, slept⟩ := by
  simp only [WaitForCI.loop, h, h1, h2, h3, ht, or_self, if_true, if_false]

theorem loop_continue (ToLower : String → String) (Since : List Duration → Duration)
    (client : GitHubClient) (sha : String) (timeout interval : Duration) (fuel queries : Nat)
    (slept : List Duration) (st : CombinedStatus)
    (h : client.GetCombinedStatus queries sha = .ok st)
    (h1 : ToLower st.State ≠ "success") (h2 : ToLower st.State ≠ "failure")
    (h3 : ToLower st.State ≠ "error") (ht : Since slept ≤ timeout) :
    WaitForCI.loop ToLower Since client sha timeout interval (fuel + 1) queries slept =
      WaitForCI.loop ToLower Since client sha timeout interval fuel (queries + 1)
        (interval :: slept) := by
  have ht' : ¬ Since slept > timeout := not_lt.mpr ht
  simp only [WaitForCI.loop, h, h1, h2, h3, ht', or_self, if_false]

/-- One iteration either ends the loop after this query, whatever fuel is left, or found the
deadline not passed and goes on with one more query made and one more sleep. -/
theorem loop_stop_or_continue (ToLower : String → String) (Since : List Duration → Duration)
    (client : GitHubClient) (sha : String) (timeout interval : Duration) (queries : Nat)
    (slept : List Duration) :
    (∃ e, ∀ fuel,
        WaitForCI.loop ToLower Since client sha timeout interval (fuel + 1) queries slept =
          some ⟨e, queries + 1, slept⟩) ∨
      (Since slept ≤ timeout ∧ ∀ fuel,
        WaitForCI.loop ToLower Since client sha timeout interval (fuel + 1) queries slept =
          WaitForCI.loop ToLower Since client sha timeout interval fuel (queries + 1)
            (interval :: slept)) := by
  cases h : client.GetCombinedStatus queries sha with
  | error err =>
    exact Or.inl ⟨_, fun fuel => loop_query_error _ _ _ _ _ _ fuel _ _ _ h⟩
  | ok st =>
    by_cases h1 : ToLower st.State = "success"
    · exact Or.inl ⟨_, fun fuel => loop_success _ _ _ _ _ _ fuel _ _ _ h h1⟩
    · by_cases h2 : ToLower st.State = "failure"
      · exact Or.inl ⟨_, fun fuel => loop_failure _ _ _ _ _ _ fuel _ _ _ h (Or.inl h2)⟩
      · by_cases h3 : ToLower st.State = "error"
        · exact Or.inl ⟨_, fun fuel => loop_failure _ _ _ _ _ _ fuel _ _ _ h (Or.inr h3)⟩
        · by_cases ht : Since slept > timeout
          · exact Or.inl ⟨_, fun fuel => loop_timeout _ _ _ _ _ _ fuel _ _ _ h h1 h2 h3 ht⟩
          · exact Or.inr ⟨not_lt.mp ht,
              fun fuel => loop_continue _ _ _ _ _ _ fuel _ _ _ h h1 h2 h3 (not_lt.mp ht)⟩

/-- While the answers are non-terminal and the deadline is not passed, `n` iterations take the
loop from `queries` calls to `queries + n` calls, with `n` more sleeps. -/
theorem loop_skip (ToLower : String → String) (Since : List Duration → Duration)
    (client : GitHubClient) (sha : String) (timeout interval : Duration) (fuel : Nat) :
    ∀ (n queries : Nat),
      (∀ k, k < n → ∃ st, client.GetCombinedStatus (queries + k) sha = .ok st ∧
        ToLower st.State ≠ "success" ∧ ToLower st.State ≠ "failure" ∧
        ToLower st.State ≠ "error" ∧
        Since (List.replicate (queries + k) interval) ≤ timeout) →
      WaitForCI.loop ToLower Since client sha timeout interval (fuel + n) queries
          (List.replicate queries interval) =
        WaitForCI.loop ToLower Since client sha timeout interval fuel (queries + n)
          (List.replicate (queries + n) interval) := by
  intro n
  induction n with
  | zero => intro queries _; rfl
  | succ n ih =>
    intro queries hprev
    obtain ⟨st, h, h1, h2, h3, ht⟩ := hprev 0 (Nat.succ_pos n)
    have hstep := loop_continue ToLower Since client sha timeout interval (fuel + n) queries
      (List.replicate queries interval) st h h1 h2 h3 ht
    have hrest := ih (queries + 1) (fun k hk => by
      have := hprev (k + 1) (Nat.succ_lt_succ hk)
      rwa [show queries + (k + 1) = queries + 1 + k by omega] at this)
    rw [show fuel + (n + 1) = fuel + n + 1 by omega, hstep,
      show interval :: List.replicate queries interval =
        List.replicate (queries + 1) interval from rfl,
      hrest, show queries + 1 + n = queries + (n + 1) by omega]

/-- On a clock where each sleep of `interval` advances time by at least `interval`, the
reading after `k` sleeps is at least the first reading plus `k` intervals. -/
theorem clock_lower_bound (Since : List Duration → Duration) (interval : Duration)
    (hclock : ∀ slept, Since slept + interval ≤ Since (interval :: slept)) (k : Nat) :
    Since [] + k * interval ≤ Since (List.replicate k interval) := by
  induction k with
  | zero => simp
  | succ k ih =>
    have h := hclock (List.replicate k interval)
    rw [List.replicate_succ]
    push_cast
    linarith

/-- If the deadline has passed after `queries + d` sleeps, the loop entered with `queries`
calls made ends within `d + 1` iterations; no call is made after an iteration that found the
deadline passed. -/
theorem loop_terminates (ToLower : String → String) (Since : List Duration → Duration)
    (client : GitHubClient) (sha : String) (timeout interval : Duration) :
    ∀ (d queries : Nat),
      Since (List.replicate (queries + d) interval) > timeout →
      (∀ k, k < queries → Since (List.replicate k interval) ≤ timeout) →
      ∃ r, (∀ fuel,
          WaitForCI.loop ToLower Since client sha timeout interval (fuel + d + 1) queries
            (List.replicate queries interval) = some r) ∧
        r.queries ≤ queries + d + 1 ∧
        ∀ k, k + 1 < r.queries → Since (List.replicate k interval) ≤ timeout := by
  intro d
  induction d with
  | zero =>
    intro queries hbig hinv
    rcases loop_stop_or_continue ToLower Since client sha timeout interval queries
      (List.replicate queries interval) with ⟨e, he⟩ | ⟨hle, _⟩
    · exact ⟨_, fun fuel => he fuel, le_refl _, fun k hk => hinv k (by simpa using hk)⟩
    · exact absurd hle (not_le.mpr hbig)
  | succ d ih =>
    intro queries hbig hinv
    rcases loop_stop_or_continue ToLower Since client sha timeout interval queries
      (List.replicate queries interval) with ⟨e, he⟩ | ⟨hle, hcont⟩
    · exact ⟨_, fun fuel => he (fuel + (d + 1)), by simp,
        fun k hk => hinv k (by simpa using hk)⟩
    · obtain ⟨r, hr, hq, hno⟩ := ih (queries + 1)
        (by rwa [show queries + 1 + d = queries + (d + 1) by omega])
        (fun k hk => by
          rcases Nat.lt_succ_iff_lt_or_eq.mp hk with hk | hk
          · exact hinv k hk
          · rw [hk]; exact hle)
      refine ⟨r, fun fuel => ?_, by omega, hno⟩
      rw [show fuel + (d + 1) + 1 = fuel + d + 1 + 1 by omega, hcont]
      exact hr fuel

/-! ## The CI wait: theorems -/

/-- C6: when the first combined-status answer carries a label that lower-cases to "success",
`WaitForCI` returns no error after exactly one status query and no sleep, for every timeout
and interval of the config and every clock. -/
theorem WaitForCI_success_first (ToLower : String → String) (Since : List Duration → Duration)
    (fuel : Nat) (cfg : config) (client : GitHubClient) (sha : String) (st : CombinedStatus)
    (h : client.GetCombinedStatus 0 sha = .ok st) (hs : ToLower st.State = "success") :
    WaitForCI ToLower Since (fuel + 1) cfg client sha = some ⟨none, 1, []⟩ :=
  loop_success ToLower Since client sha _ _ fuel 0 [] st h hs

/-- C6, at a gateway answering "SUCCESS". -/
theorem WaitForCI_success_first_witness :
    WaitForCI asciiToLower sleepClock 1 config.zero (constClient "SUCCESS") "abc" =
      some ⟨none, 1, []⟩ :=
  WaitForCI_success_first asciiToLower sleepClock 0 config.zero (constClient "SUCCESS") "abc"
    ⟨"SUCCESS", "abc", 0, "", ""⟩ rfl (by decide)

/-- C7: when the first combined-status answer carries a label that lower-cases to "failure"
or "error", `WaitForCI` returns the error `ci reported <state>` with the lower-cased state,
after exactly one status query and no sleep, for every timeout and interval of the config and
every clock. -/
theorem WaitForCI_failure_first (ToLower : String → String) (Since : List Duration → Duration)
    (fuel : Nat) (cfg : config) (client : GitHubClient) (sha : String) (st : CombinedStatus)
    (h : client.GetCombinedStatus 0 sha = .ok st)
    (hs : ToLower st.State = "failure" ∨ ToLower st.State = "error") :
    WaitForCI ToLower Since (fuel + 1) cfg client sha =
      some ⟨some (.ErrorfS "ci reported %s" (ToLower st.State)), 1, []⟩ :=
  loop_failure ToLower Since client sha _ _ fuel 0 [] st h hs

/-- C7, at a gateway answering "Failure". -/
theorem WaitForCI_failure_first_witness :
    WaitForCI asciiToLower sleepClock 1 config.zero (constClient "Failure") "abc" =
      some ⟨some (.ErrorfS "ci reported %s" "failure"), 1, []⟩ :=
  WaitForCI_failure_first asciiToLower sleepClock 0 config.zero (constClient "Failure") "abc"
    ⟨"Failure", "abc", 0, "", ""⟩ rfl (Or.inl (by decide))

/-- C8: when the first `n` status queries are answered with non-terminal labels while the
deadline is not passed and the next query returns the error `err`, `WaitForCI` returns
`failed to fetch combined status` wrapping `err` after exactly `n + 1` queries and `n`
sleeps. Nothing is assumed on the elapsed time at the failing query. -/
theorem WaitForCI_query_error (ToLower : String → String) (Since : List Duration → Duration)
    (fuel : Nat) (cfg : config) (client : GitHubClient) (sha : String) (n : Nat)
    (err : GoError)
    (hprev : ∀ k, k < n → ∃ st, client.GetCombinedStatus k sha = .ok st ∧
      ToLower st.State ≠ "success" ∧ ToLower st.State ≠ "failure" ∧
      ToLower st.State ≠ "error" ∧
      Since (List.replicate k (WaitForCI.interval cfg)) ≤ WaitForCI.timeout cfg)
    (herr : client.GetCombinedStatus n sha = .error err) :
    WaitForCI ToLower Since (fuel + 1 + n) cfg client sha =
      some ⟨some (.ErrorfW "failed to fetch combined status: %w" err), n + 1,
        List.replicate n (WaitForCI.interval cfg)⟩ := by
  unfold WaitForCI
  have hskip := loop_skip ToLower Since client sha (WaitForCI.timeout cfg)
    (WaitForCI.interval cfg) (fuel + 1) n 0 (fun k hk => by
      simpa only [Nat.zero_add] using hprev k hk)
  simp only [Nat.zero_add, List.replicate_zero] at hskip
  rw [hskip]
  exact loop_query_error _ _ _ _ _ _ fuel _ _ _ herr

/-- C8, at a gateway that answers "pending" once and errors on its second query, with a
deadline of 5ms that the first sleep of 10ms has passed when the second query is made. -/
theorem WaitForCI_query_error_witness :
    sleepClock [10 * Millisecond] > WaitForCI.timeout shortConfig ∧
      WaitForCI asciiToLower sleepClock 2 shortConfig
          (failingClient "pending" 1 (.New "boom")) "abc" =
        some ⟨some (.ErrorfW "failed to fetch combined status: %w" (.New "boom")), 2,
          [10 * Millisecond]⟩ :=
  ⟨by decide,
    WaitForCI_query_error asciiToLower sleepClock 0 shortConfig
      (failingClient "pending" 1 (.New "boom")) "abc" 1 (.New "boom")
      (fun k hk => by
        have hk0 : k = 0 := by omega
        subst hk0
        exact ⟨⟨"pending", "abc", 0, "", ""⟩, rfl, by decide, by decide, by decide,
          by decide⟩)
      rfl⟩

/-- C9 as stated fails: with "pending" on every query, timeout 50ms, interval 10ms and a
clock that advances only during sleeps by exactly the interval, `WaitForCI` returns the
timeout error after 7 status queries, which is not between 4 and 6. -/
theorem WaitForCI_pending_counterexample :
    ∃ r, WaitForCI asciiToLower sleepClock 7 pendingConfig (constClient "pending") "abc" =
        some r ∧
      r.err = some (.ErrorfD "ci did not finish within %s" (50 * Millisecond)) ∧
      ¬ (4 ≤ r.queries ∧ r.queries ≤ 6) :=
  ⟨⟨some (.ErrorfD "ci did not finish within %s" (50 * Millisecond)), 7,
    List.replicate 6 (10 * Millisecond)⟩, by decide, rfl, by decide⟩

/-- C9, amended: with "pending" on every query, timeout 50ms, interval 10ms and a clock that
advances only during sleeps by exactly the interval, `WaitForCI` returns the timeout error
after exactly 7 status queries and 6 sleeps. -/
theorem WaitForCI_pending_timeout (ToLower : String → String) (fuel : Nat) (cfg : config)
    (client : GitHubClient) (sha : String)
    (hlow : ToLower "pending" = "pending")
    (hT : cfg.CIWaitTimeout = 50 * Millisecond) (hI : cfg.CIWaitInterval = 10 * Millisecond)
    (hpend : ∀ k, ∃ st, client.GetCombinedStatus k sha = .ok st ∧ st.State = "pending") :
    WaitForCI ToLower sleepClock (fuel + 7) cfg client sha =
      some ⟨some (.ErrorfD "ci did not finish within %s" (50 * Millisecond)), 7,
        List.replicate 6 (10 * Millisecond)⟩ := by
  have hT' : WaitForCI.timeout cfg = 50 * Millisecond := by
    rw [WaitForCI.timeout, hT]; rfl
  have hI' : WaitForCI.interval cfg = 10 * Millisecond := by
    rw [WaitForCI.interval, hI]; rfl
  have hst : ∀ k, ∃ st, client.GetCombinedStatus k sha = .ok st ∧
      ToLower st.State ≠ "success" ∧ ToLower st.State ≠ "failure" ∧
      ToLower st.State ≠ "error" := by
    intro k
    obtain ⟨st, h, hp⟩ := hpend k
    refine ⟨st, h, ?_, ?_, ?_⟩ <;> rw [hp, hlow] <;> decide
  unfold WaitForCI
  rw [hT', hI']
  have hskip := loop_skip ToLower sleepClock client sha (50 * Millisecond) (10 * Millisecond)
    (fuel + 1) 6 0 (fun k hk => by
      obtain ⟨st, h, h1, h2, h3⟩ := hst (0 + k)
      refine ⟨st, h, h1, h2, h3, ?_⟩
      rw [Nat.zero_add]
      interval_cases k <;> decide)
  simp only [Nat.zero_add, List.replicate_zero] at hskip
  rw [show fuel + 7 = fuel + 1 + 6 by omega, hskip]
  obtain ⟨st, h, h1, h2, h3⟩ := hst 6
  exact loop_timeout _ _ _ _ _ _ fuel _ _ st h h1 h2 h3 (by decide)

/-- C9, amended, at the gateway that answers "pending" for ever. -/
theorem WaitForCI_pending_timeout_witness :
    WaitForCI asciiToLower sleepClock 20 pendingConfig (constClient "pending") "abc" =
      some ⟨some (.ErrorfD "ci did not finish within %s" (50 * Millisecond)), 7,
        List.replicate 6 (10 * Millisecond)⟩ :=
  WaitForCI_pending_timeout asciiToLower 13 pendingConfig (constClient "pending") "abc"
    (by decide) rfl rfl (fun _ => ⟨⟨"pending", "abc", 0, "", ""⟩, rfl, rfl⟩)

/-- C10: for a positive timeout and a positive interval, any gateway, and a clock on which
each sleep of the interval advances time by at least the interval, `WaitForCI` returns: there
is a result `r` that it returns for every fuel from an explicit bound on, the number of its
status queries is at most that bound, and every query but the last was answered while the
elapsed time did not exceed the timeout. -/
theorem WaitForCI_terminates (ToLower : String → String) (Since : List Duration → Duration)
    (cfg : config) (client : GitHubClient) (sha : String)
    (hT : 0 < cfg.CIWaitTimeout) (hI : 0 < cfg.CIWaitInterval)
    (hclock : ∀ slept, Since slept + cfg.CIWaitInterval ≤ Since (cfg.CIWaitInterval :: slept)) :
    ∃ r,
      (∀ fuel, ((cfg.CIWaitTimeout - Since []) / cfg.CIWaitInterval).toNat + 2 ≤ fuel →
        WaitForCI ToLower Since fuel cfg client sha = some r) ∧
      r.queries ≤ ((cfg.CIWaitTimeout - Since []) / cfg.CIWaitInterval).toNat + 2 ∧
      ∀ k, k + 1 < r.queries →
        ¬ (Since (List.replicate k cfg.CIWaitInterval) > cfg.CIWaitTimeout) := by
  have hT' : WaitForCI.timeout cfg = cfg.CIWaitTimeout := by
    rw [WaitForCI.timeout, if_neg (not_le.mpr hT)]
  have hI' : WaitForCI.interval cfg = cfg.CIWaitInterval := by
    rw [WaitForCI.interval, if_neg (not_le.mpr hI)]
  set T := cfg.CIWaitTimeout with hTdef
  set I := cfg.CIWaitInterval with hIdef
  set d := ((T - Since []) / I).toNat + 1 with hd
  have hbig : Since (List.replicate (0 + d) I) > T := by
    rw [Nat.zero_add]
    have h1 := clock_lower_bound Since I hclock d
    have h2 : T - Since [] < ((T - Since []) / I + 1) * I :=
      Int.lt_ediv_add_one_mul_self _ hI
    have h3 : (T - Since []) / I + 1 ≤ (d : Int) := by
      rw [hd]
      push_cast
      have := Int.self_le_toNat ((T - Since []) / I)
      linarith
    have h4 : ((T - Since []) / I + 1) * I ≤ (d : Int) * I :=
      mul_le_mul_of_nonneg_right h3 (le_of_lt hI)
    linarith
  obtain ⟨r, hr, hq, hno⟩ := loop_terminates ToLower Since client sha T I d 0 hbig
    (fun k hk => absurd hk (Nat.not_lt_zero k))
  refine ⟨r, fun fuel hfuel => ?_, by omega, fun k hk => not_lt.mpr (hno k hk)⟩
  unfold WaitForCI
  rw [hT', hI']
  obtain ⟨f, rfl⟩ : ∃ f, fuel = f + d + 1 := ⟨fuel - (d + 1), by omega⟩
  exact hr f

/-- C10, at the gateway that answers "pending" for ever, with timeout 50ms, interval 10ms and
the clock that advances by exactly the time slept. -/
theorem WaitForCI_terminates_witness :
    ∃ r,
      (∀ fuel,
        ((pendingConfig.CIWaitTimeout - sleepClock []) / pendingConfig.CIWaitInterval).toNat
            + 2 ≤ fuel →
          WaitForCI asciiToLower sleepClock fuel pendingConfig (constClient "pending") "abc" =
            some r) ∧
      r.queries ≤
        ((pendingConfig.CIWaitTimeout - sleepClock []) / pendingConfig.CIWaitInterval).toNat
          + 2 ∧
      ∀ k, k + 1 < r.queries →
        ¬ (sleepClock (List.replicate k pendingConfig.CIWaitInterval) >
          pendingConfig.CIWaitTimeout) :=
  WaitForCI_terminates asciiToLower sleepClock pendingConfig (constClient "pending") "abc"
    (by decide) (by decide)
    (fun slept => by
      simp only [sleepClock, List.sum_cons]
      exact le_of_eq (add_comm _ _))

/-! ## The CI wait: lemmas on the results of the loop -/

/-- One iteration either ends the loop after this query, whatever fuel is left, or was
answered with a non-terminal label while the deadline was not passed and goes on. -/
theorem loop_step_cases (ToLower : String → String) (Since : List Duration → Duration)
    (client : GitHubClient) (sha : String) (timeout interval : Duration) (queries : Nat)
    (slept : List Duration) :
    (∃ e, ∀ fuel,
        WaitForCI.loop ToLower Since client sha timeout interval (fuel + 1) queries slept =
          some ⟨e, queries + 1, slept⟩) ∨
      ((∃ st, client.GetCombinedStatus queries sha = .ok st ∧
          ToLower st.State ≠ "success" ∧ ToLower st.State ≠ "failure" ∧
          ToLower st.State ≠ "error" ∧ Since slept ≤ timeout) ∧
        ∀ fuel,
          WaitForCI.loop ToLower Since client sha timeout interval (fuel + 1) queries slept =
            WaitForCI.loop ToLower Since client sha timeout interval fuel (queries + 1)
              (interval :: slept)) := by
  cases h : client.GetCombinedStatus queries sha with
  | error err =>
    exact Or.inl ⟨_, fun fuel => loop_query_error _ _ _ _ _ _ fuel _ _ _ h⟩
  | ok st =>
    by_cases h1 : ToLower st.State = "success"
    · exact Or.inl ⟨_, fun fuel => loop_success _ _ _ _ _ _ fuel _ _ _ h h1⟩
    · by_cases h2 : ToLower st.State = "failure"
      · exact Or.inl ⟨_, fun fuel => loop_failure _ _ _ _ _ _ fuel _ _ _ h (Or.inl h2)⟩
      · by_cases h3 : ToLower st.State = "error"
        · exact Or.inl ⟨_, fun fuel => loop_failure _ _ _ _ _ _ fuel _ _ _ h (Or.inr h3)⟩
        · by_cases ht : Since slept > timeout
          · exact Or.inl ⟨_, fun fuel => loop_timeout _ _ _ _ _ _ fuel _ _ _ h h1 h2 h3 ht⟩
          · exact Or.inr ⟨⟨st, rfl, h1, h2, h3, not_lt.mp ht⟩,
              fun fuel => loop_continue _ _ _ _ _ _ fuel _ _ _ h h1 h2 h3 (not_lt.mp ht)⟩

/-- A result of the loop is kept when more fuel is given. -/
theorem loop_mono (ToLower : String → String) (Since : List Duration → Duration)
    (client : GitHubClient) (sha : String) (timeout interval : Duration) (r : WaitResult) :
    ∀ (fuel queries : Nat) (slept : List Duration),
      WaitForCI.loop ToLower Since client sha timeout interval fuel queries slept = some r →
      ∀ more,
        WaitForCI.loop ToLower Since client sha timeout interval (fuel + more) queries slept =
          some r := by
  intro fuel
  induction fuel with
  | zero => intro queries slept h; simp [WaitForCI.loop] at h
  | succ fuel ih =>
    intro queries slept h more
    rcases loop_step_cases ToLower Since client sha timeout interval queries slept with
      ⟨e, he⟩ | ⟨_, hcont⟩
    · rw [show fuel + 1 + more = fuel + more + 1 by omega, he]
      rw [he] at h
      exact h
    · rw [show fuel + 1 + more = fuel + more + 1 by omega, hcont]
      rw [hcont] at h
      exact ih _ _ h more

/-- What a single iteration returns, when it returns: the query count and the sleeps of its
entry state, and the error that the answer and the clock reading select. -/
theorem loop_one (ToLower : String → String) (Since : List Duration → Duration)
    (client : GitHubClient) (sha : String) (timeout interval : Duration) (queries : Nat)
    (slept : List Duration) (r : WaitResult)
    (h : WaitForCI.loop ToLower Since client sha timeout interval 1 queries slept = some r) :
    r.queries = queries + 1 ∧ r.slept = slept ∧
      ((∃ e, client.GetCombinedStatus queries sha = .error e ∧
          r.err = some (.ErrorfW "failed to fetch combined status: %w" e)) ∨
        (∃ st, client.GetCombinedStatus queries sha = .ok st ∧
          ToLower st.State = "success" ∧ r.err = none) ∨
        (∃ st, client.GetCombinedStatus queries sha = .ok st ∧
          (ToLower st.State = "failure" ∨ ToLower st.State = "error") ∧
          r.err = some (.ErrorfS "ci reported %s" (ToLower st.State))) ∨
        (∃ st, client.GetCombinedStatus queries sha = .ok st ∧
          ToLower st.State ≠ "success" ∧ ToLower st.State ≠ "failure" ∧
          ToLower st.State ≠ "error" ∧ Since slept > timeout ∧
          r.err = some (.ErrorfD "ci did not finish within %s" timeout))) := by
  cases hq : client.GetCombinedStatus queries sha with
  | error err =>
    rw [loop_query_error _ _ _ _ _ _ 0 _ _ _ hq] at h
    injection h with h
    subst h
    exact ⟨rfl, rfl, Or.inl ⟨err, rfl, rfl⟩⟩
  | ok st =>
    by_cases h1 : ToLower st.State = "success"
    · rw [loop_success _ _ _ _ _ _ 0 _ _ _ hq h1] at h
      injection h with h
      subst h
      exact ⟨rfl, rfl, Or.inr (Or.inl ⟨st, rfl, h1, rfl⟩)⟩
    · by_cases h23 : ToLower st.State = "failure" ∨ ToLower st.State = "error"
      · rw [loop_failure _ _ _ _ _ _ 0 _ _ _ hq h23] at h
        injection h with h
        subst h
        exact ⟨rfl, rfl, Or.inr (Or.inr (Or.inl ⟨st, rfl, h23, rfl⟩))⟩
      · have h2 : ToLower st.State ≠ "failure" := fun hh => h23 (Or.inl hh)
        have h3 : ToLower st.State ≠ "error" := fun hh => h23 (Or.inr hh)
        by_cases ht : Since slept > timeout
        · rw [loop_timeout _ _ _ _ _ _ 0 _ _ _ hq h1 h2 h3 ht] at h
          injection h with h
          subst h
          exact ⟨rfl, rfl, Or.inr (Or.inr (Or.inr ⟨st, rfl, h1, h2, h3, ht, rfl⟩))⟩
        · rw [loop_continue _ _ _ _ _ _ 0 _ _ _ hq h1 h2 h3 (not_lt.mp ht)] at h
          simp [WaitForCI.loop] at h

/-- A result of the loop entered after `queries` calls and as many sleeps is the result of
one iteration entered after `n` calls, and all the iterations before that one were answered
with a non-terminal label while the deadline was not passed. -/
theorem loop_result (ToLower : String → String) (Since : List Duration → Duration)
    (client : GitHubClient) (sha : String) (timeout interval : Duration) (r : WaitResult) :
    ∀ (fuel queries : Nat),
      WaitForCI.loop ToLower Since client sha timeout interval fuel queries
        (List.replicate queries interval) = some r →
      ∃ n, queries ≤ n ∧
        (∀ k, queries ≤ k → k < n → ∃ st, client.GetCombinedStatus k sha = .ok st ∧
          ToLower st.State ≠ "success" ∧ ToLower st.State ≠ "failure" ∧
          ToLower st.State ≠ "error" ∧ Since (List.replicate k interval) ≤ timeout) ∧
        WaitForCI.loop ToLower Since client sha timeout interval 1 n
          (List.replicate n interval) = some r := by
  intro fuel
  induction fuel with
  | zero => intro queries h; simp [WaitForCI.loop] at h
  | succ fuel ih =>
    intro queries h
    rcases loop_step_cases ToLower Since client sha timeout interval queries
      (List.replicate queries interval) with ⟨e, he⟩ | ⟨hst, hcont⟩
    · refine ⟨queries, le_refl _, fun k hk hk' => absurd hk (not_le.mpr hk'), ?_⟩
      rw [he] at h
      rw [he 0]
      exact h
    · rw [hcont] at h
      obtain ⟨n, hn, hprev, hlast⟩ := ih (queries + 1) h
      refine ⟨n, by omega, fun k hk hk' => ?_, hlast⟩
      rcases Nat.eq_or_lt_of_le hk with hk0 | hk0
      · rw [← hk0]
        exact hst
      · exact hprev k hk0 hk'

/-- Two gateways whose answers agree, except where the first answers "pending" and the second
a label that lower-cases to none of the terminal ones, take the loop to the same result. -/
theorem loop_congr (ToLower : String → String) (Since : List Duration → Duration)
    (client client' : GitHubClient) (sha : String) (timeout interval : Duration)
    (hpend : ToLower "pending" = "pending")
    (hrel : ∀ k, client.GetCombinedStatus k sha = client'.GetCombinedStatus k sha ∨
      ∃ st st', client.GetCombinedStatus k sha = .ok st ∧
        client'.GetCombinedStatus k sha = .ok st' ∧ st.State = "pending" ∧
        ToLower st'.State ≠ "success" ∧ ToLower st'.State ≠ "failure" ∧
        ToLower st'.State ≠ "error") :
    ∀ (fuel queries : Nat) (slept : List Duration),
      WaitForCI.loop ToLower Since client' sha timeout interval fuel queries slept =
        WaitForCI.loop ToLower Since client sha timeout interval fuel queries slept := by
  intro fuel
  induction fuel with
  | zero => intro queries slept; rfl
  | succ fuel ih =>
    intro queries slept
    rcases hrel queries with heq | ⟨st, st', h, h', hp, n1, n2, n3⟩
    · simp only [WaitForCI.loop, heq, ih]
    · have m1 : ToLower st.State ≠ "success" := by rw [hp, hpend]; decide
      have m2 : ToLower st.State ≠ "failure" := by rw [hp, hpend]; decide
      have m3 : ToLower st.State ≠ "error" := by rw [hp, hpend]; decide
      by_cases ht : Since slept > timeout
      · rw [loop_timeout _ _ _ _ _ _ fuel _ _ st' h' n1 n2 n3 ht,
          loop_timeout _ _ _ _ _ _ fuel _ _ st h m1 m2 m3 ht]
      · rw [loop_continue _ _ _ _ _ _ fuel _ _ st' h' n1 n2 n3 (not_lt.mp ht),
          loop_continue _ _ _ _ _ _ fuel _ _ st h m1 m2 m3 (not_lt.mp ht)]
        exact ih _ _

/-! ## The CI wait: the deadline and the labels -/

/-- C11: when a query is answered with a non-terminal label while the elapsed time equals the
timeout, `WaitForCI` does not return: it sleeps for the interval and goes on with the next
query, so that every result it returns has at least one more query. And whenever `WaitForCI`
returns the timeout error, the elapsed time read at its last query was strictly greater than
the timeout. -/
theorem WaitForCI_deadline_strict (ToLower : String → String)
    (Since : List Duration → Duration) (cfg : config) (client : GitHubClient) (sha : String) :
    (∀ (n : Nat) (st : CombinedStatus),
      (∀ k, k < n → ∃ st, client.GetCombinedStatus k sha = .ok st ∧
        ToLower st.State ≠ "success" ∧ ToLower st.State ≠ "failure" ∧
        ToLower st.State ≠ "error" ∧
        Since (List.replicate k (WaitForCI.interval cfg)) ≤ WaitForCI.timeout cfg) →
      client.GetCombinedStatus n sha = .ok st →
      ToLower st.State ≠ "success" → ToLower st.State ≠ "failure" →
      ToLower st.State ≠ "error" →
      Since (List.replicate n (WaitForCI.interval cfg)) = WaitForCI.timeout cfg →
      (∀ fuel, WaitForCI ToLower Since (fuel + 1 + n) cfg client sha =
        WaitForCI.loop ToLower Since client sha (WaitForCI.timeout cfg)
          (WaitForCI.interval cfg) fuel (n + 1)
          (WaitForCI.interval cfg :: List.replicate n (WaitForCI.interval cfg))) ∧
      ∀ fuel r, WaitForCI ToLower Since fuel cfg client sha = some r → n + 2 ≤ r.queries) ∧
    ∀ fuel r, WaitForCI ToLower Since fuel cfg client sha = some r →
      r.err = some (.ErrorfD "ci did not finish within %s" (WaitForCI.timeout cfg)) →
      Since r.slept > WaitForCI.timeout cfg := by
  constructor
  · intro n st hprev hn h1 h2 h3 heq
    have hgo : ∀ fuel, WaitForCI ToLower Since (fuel + 1 + n) cfg client sha =
        WaitForCI.loop ToLower Since client sha (WaitForCI.timeout cfg)
          (WaitForCI.interval cfg) fuel (n + 1)
          (WaitForCI.interval cfg :: List.replicate n (WaitForCI.interval cfg)) := by
      intro fuel
      unfold WaitForCI
      have hskip := loop_skip ToLower Since client sha (WaitForCI.timeout cfg)
        (WaitForCI.interval cfg) (fuel + 1) n 0 (fun k hk => by
          simpa only [Nat.zero_add] using hprev k hk)
      simp only [Nat.zero_add, List.replicate_zero] at hskip
      rw [hskip]
      exact loop_continue _ _ _ _ _ _ fuel _ _ st hn h1 h2 h3 (le_of_eq heq)
    refine ⟨hgo, fun fuel r hr => ?_⟩
    have hmore := loop_mono ToLower Since client sha (WaitForCI.timeout cfg)
      (WaitForCI.interval cfg) r fuel 0 [] hr (n + 2)
    have hgo' := hgo (fuel + 1)
    unfold WaitForCI at hgo'
    rw [show fuel + (n + 2) = fuel + 1 + 1 + n by omega, hgo'] at hmore
    obtain ⟨m, hm, _, hlast⟩ := loop_result ToLower Since client sha (WaitForCI.timeout cfg)
      (WaitForCI.interval cfg) r (fuel + 1) (n + 1) hmore
    have hq := (loop_one _ _ _ _ _ _ _ _ _ hlast).1
    omega
  · intro fuel r hr herr
    obtain ⟨m, _, _, hlast⟩ := loop_result ToLower Since client sha (WaitForCI.timeout cfg)
      (WaitForCI.interval cfg) r fuel 0 hr
    obtain ⟨_, hs, hcases⟩ := loop_one _ _ _ _ _ _ _ _ _ hlast
    rw [hs]
    rcases hcases with ⟨e, _, he⟩ | ⟨st, _, _, he⟩ | ⟨st, _, _, he⟩ | ⟨st, _, _, _, _, ht, _⟩
    · rw [he] at herr; cases herr
    · rw [he] at herr; cases herr
    · rw [he] at herr; cases herr
    · exact ht

/-- C11, at the gateway that answers "pending" for ever, with timeout 50ms, interval 10ms and
the clock that advances by exactly the time slept: the sixth query is answered when exactly
50ms have elapsed, and the loop goes on to a seventh query. -/
theorem WaitForCI_deadline_strict_witness :
    sleepClock (List.replicate 5 (WaitForCI.interval pendingConfig)) =
        WaitForCI.timeout pendingConfig ∧
      WaitForCI asciiToLower sleepClock 7 pendingConfig (constClient "pending") "abc" =
        WaitForCI.loop asciiToLower sleepClock (constClient "pending") "abc"
          (WaitForCI.timeout pendingConfig) (WaitForCI.interval pendingConfig) 1 6
          (WaitForCI.interval pendingConfig ::
            List.replicate 5 (WaitForCI.interval pendingConfig)) :=
  ⟨by decide,
    ((WaitForCI_deadline_strict asciiToLower sleepClock pendingConfig (constClient "pending")
      "abc").1 5 ⟨"pending", "abc", 0, "", ""⟩
      (fun k hk => ⟨⟨"pending", "abc", 0, "", ""⟩, rfl, by decide, by decide, by decide, by
        interval_cases k <;> decide⟩)
      rfl (by decide) (by decide) (by decide) (by decide)).1 1⟩

/-- C12: when the answers of two gateways agree, except where the first answers "pending" and
the second a label that lower-cases to none of "success", "failure", "error", `WaitForCI`
gives the same result on both, with the same number of queries and the same sleeps. And when
the last query of `WaitForCI` was answered with such a label, the error it returns is the
timeout error and the elapsed time read at that query exceeded the timeout. -/
theorem WaitForCI_unknown_label (ToLower : String → String) (Since : List Duration → Duration)
    (cfg : config) (client client' : GitHubClient) (sha : String)
    (hpend : ToLower "pending" = "pending")
    (hrel : ∀ k, client.GetCombinedStatus k sha = client'.GetCombinedStatus k sha ∨
      ∃ st st', client.GetCombinedStatus k sha = .ok st ∧
        client'.GetCombinedStatus k sha = .ok st' ∧ st.State = "pending" ∧
        ToLower st'.State ≠ "success" ∧ ToLower st'.State ≠ "failure" ∧
        ToLower st'.State ≠ "error") :
    (∀ fuel, WaitForCI ToLower Since fuel cfg client' sha =
      WaitForCI ToLower Since fuel cfg client sha) ∧
    ∀ fuel r st', WaitForCI ToLower Since fuel cfg client' sha = some r →
      client'.GetCombinedStatus (r.queries - 1) sha = .ok st' →
      ToLower st'.State ≠ "success" → ToLower st'.State ≠ "failure" →
      ToLower st'.State ≠ "error" →
      r.err = some (.ErrorfD "ci did not finish within %s" (WaitForCI.timeout cfg)) ∧
        Since r.slept > WaitForCI.timeout cfg := by
  refine ⟨fun fuel => loop_congr ToLower Since client client' sha _ _ hpend hrel fuel 0 [],
    fun fuel r st' hr hq n1 n2 n3 => ?_⟩
  obtain ⟨m, _, _, hlast⟩ := loop_result ToLower Since client' sha (WaitForCI.timeout cfg)
    (WaitForCI.interval cfg) r fuel 0 hr
  obtain ⟨hqs, hs, hcases⟩ := loop_one _ _ _ _ _ _ _ _ _ hlast
  rw [hqs, Nat.add_sub_cancel] at hq
  rw [hs]
  rcases hcases with ⟨e, he, _⟩ | ⟨st, he, hst, _⟩ | ⟨st, he, hst, _⟩ |
    ⟨st, _, _, _, _, ht, herr⟩
  · rw [he] at hq; cases hq
  · rw [he] at hq
    injection hq with hq
    subst hq
    exact absurd hst n1
  · rw [he] at hq
    injection hq with hq
    subst hq
    rcases hst with hst | hst
    · exact absurd hst n2
    · exact absurd hst n3
  · exact ⟨herr, ht⟩

/-- C12, at the gateway that answers the misspelled label "succes" for ever, against the one
that answers "pending" for ever. -/
theorem WaitForCI_unknown_label_witness :
    WaitForCI asciiToLower sleepClock 10 pendingConfig (constClient "succes") "abc" =
      WaitForCI asciiToLower sleepClock 10 pendingConfig (constClient "pending") "abc" :=
  (WaitForCI_unknown_label asciiToLower sleepClock pendingConfig (constClient "pending")
    (constClient "succes") "abc" (by decide)
    (fun _ => Or.inr ⟨⟨"pending", "abc", 0, "", ""⟩, ⟨"succes", "abc", 0, "", ""⟩, rfl, rfl,
      rfl, by decide, by decide, by decide⟩)).1 10

/-! ## The merge: theorems -/

/-- The errors that `MergePullRequest` of `github.go` returns are built by `fmt.Errorf`: none
of them is the error that `Merge` builds with `errors.New`. -/
theorem MergePullRequest_error_ne (x : MergeExchange) (prNumber : Int)
    (prTitle prMessage : String) :
    (MergePullRequest x prNumber prTitle prMessage).2 ≠
      some (.New "merge API returned false") := by
  unfold MergePullRequest
  simp only
  split
  · simp
  · split
    · simp
    · split
      · simp
      · split
        · simp
        · split <;> simp

/-- C13: `Merge` returns no error exactly when the merge call of the gateway returns no error
and `merged = true`; when the call returns no error and `merged = false`, `Merge` returns the
error `merge API returned false`; when the call returns an error, `Merge` returns that error
unchanged; in every case the gateway is called once, with the number and the title of the pull
request and the squash message. The error `merge API returned false` is none of the errors
that `MergePullRequest` of `github.go` returns. -/
theorem Merge_decision (cfg : config) (client : GitHubClient) (pr : PullRequest) :
    ((Merge cfg client pr).err = none ↔
      client.MergePullRequest pr.Number pr.Title
        (cfg.CommitPrefix ++ " Squash merge by automation") = (true, none)) ∧
    (client.MergePullRequest pr.Number pr.Title
        (cfg.CommitPrefix ++ " Squash merge by automation") = (false, none) →
      (Merge cfg client pr).err = some (.New "merge API returned false")) ∧
    (∀ merged e, client.MergePullRequest pr.Number pr.Title
        (cfg.CommitPrefix ++ " Squash merge by automation") = (merged, some e) →
      (Merge cfg client pr).err = some e) ∧
    (Merge cfg client pr).calls =
      [(pr.Number, pr.Title, cfg.CommitPrefix ++ " Squash merge by automation")] ∧
    ∀ (x : MergeExchange) (prNumber : Int) (prTitle prMessage : String),
      (MergePullRequest x prNumber prTitle prMessage).2 ≠
        some (.New "merge API returned false") := by
  refine ⟨?_, ?_, ?_, ?_, MergePullRequest_error_ne⟩
  · unfold Merge
    rcases h : client.MergePullRequest pr.Number pr.Title
      (cfg.CommitPrefix ++ " Squash merge by automation") with ⟨merged, _ | e⟩
    · cases merged <;> simp [h]
    · simp [h]
  · intro h
    unfold Merge
    simp [h]
  · intro merged e h
    unfold Merge
    simp [h]
  · unfold Merge
    rcases h : client.MergePullRequest pr.Number pr.Title
      (cfg.CommitPrefix ++ " Squash merge by automation") with ⟨merged, _ | e⟩
    · cases merged <;> simp [h]
    · simp [h]

/-- C13, at a gateway whose merge call answers `merged = false` with no error. -/
theorem Merge_decision_witness :
    (Merge exampleConfig (mergeClient (false, none)) examplePR).err =
        some (.New "merge API returned false") ∧
      (Merge exampleConfig (mergeClient (false, none)) examplePR).calls =
        [(7, "[bot] Merge from main", "[bot] Squash merge by automation")] :=
  ⟨(Merge_decision exampleConfig (mergeClient (false, none)) examplePR).2.1 rfl,
    (Merge_decision exampleConfig (mergeClient (false, none)) examplePR).2.2.2.1⟩

/-! ## The CI wait: terminal labels -/

/-- C14: every result of `WaitForCI` has at least one status query. When a query that follows
only non-terminal answers is answered with a label that lower-cases to "success", `WaitForCI`
returns no error, and when the label lower-cases to "failure" or "error" it returns
`ci reported <state>`, after that query, whatever the elapsed time read there would be. And
whenever `WaitForCI` returns, a query it made that was answered with a terminal label is its
last one and decides the error in this way, so the result is not the timeout error. -/
theorem WaitForCI_terminal_decides (ToLower : String → String)
    (Since : List Duration → Duration) (cfg : config) (client : GitHubClient) (sha : String) :
    (∀ fuel r, WaitForCI ToLower Since fuel cfg client sha = some r → 1 ≤ r.queries) ∧
    (∀ (n : Nat) (st : CombinedStatus),
      (∀ k, k < n → ∃ st, client.GetCombinedStatus k sha = .ok st ∧
        ToLower st.State ≠ "success" ∧ ToLower st.State ≠ "failure" ∧
        ToLower st.State ≠ "error" ∧
        Since (List.replicate k (WaitForCI.interval cfg)) ≤ WaitForCI.timeout cfg) →
      client.GetCombinedStatus n sha = .ok st →
      (ToLower st.State = "success" →
        ∀ fuel, WaitForCI ToLower Since (fuel + 1 + n) cfg client sha =
          some ⟨none, n + 1, List.replicate n (WaitForCI.interval cfg)⟩) ∧
      (ToLower st.State = "failure" ∨ ToLower st.State = "error" →
        ∀ fuel, WaitForCI ToLower Since (fuel + 1 + n) cfg client sha =
          some ⟨some (.ErrorfS "ci reported %s" (ToLower st.State)), n + 1,
            List.replicate n (WaitForCI.interval cfg)⟩)) ∧
    ∀ fuel r k st, WaitForCI ToLower Since fuel cfg client sha = some r →
      k < r.queries → client.GetCombinedStatus k sha = .ok st →
      (ToLower st.State = "success" → r.err = none ∧ r.queries = k + 1) ∧
      (ToLower st.State = "failure" ∨ ToLower st.State = "error" →
        r.err = some (.ErrorfS "ci reported %s" (ToLower st.State)) ∧ r.queries = k + 1) := by
  refine ⟨fun fuel r hr => ?_, fun n st hprev hn => ?_, fun fuel r k st hr hk hq => ?_⟩
  · obtain ⟨m, _, _, hlast⟩ := loop_result ToLower Since client sha (WaitForCI.timeout cfg)
      (WaitForCI.interval cfg) r fuel 0 hr
    have := (loop_one _ _ _ _ _ _ _ _ _ hlast).1
    omega
  · have hskip : ∀ fuel, WaitForCI ToLower Since (fuel + 1 + n) cfg client sha =
        WaitForCI.loop ToLower Since client sha (WaitForCI.timeout cfg)
          (WaitForCI.interval cfg) (fuel + 1) n
          (List.replicate n (WaitForCI.interval cfg)) := by
      intro fuel
      unfold WaitForCI
      have hskip := loop_skip ToLower Since client sha (WaitForCI.timeout cfg)
        (WaitForCI.interval cfg) (fuel + 1) n 0 (fun k hk => by
          simpa only [Nat.zero_add] using hprev k hk)
      simpa only [Nat.zero_add, List.replicate_zero] using hskip
    constructor
    · intro hs fuel
      rw [hskip]
      exact loop_success _ _ _ _ _ _ fuel _ _ st hn hs
    · intro hs fuel
      rw [hskip]
      exact loop_failure _ _ _ _ _ _ fuel _ _ st hn hs
  · obtain ⟨m, _, hprev, hlast⟩ := loop_result ToLower Since client sha
      (WaitForCI.timeout cfg) (WaitForCI.interval cfg) r fuel 0 hr
    obtain ⟨hqs, _, hcases⟩ := loop_one _ _ _ _ _ _ _ _ _ hlast
    have hterm : (ToLower st.State = "success" ∨ ToLower st.State = "failure" ∨
        ToLower st.State = "error") → k = m := by
      intro hT
      by_contra hne
      obtain ⟨st', h', n1, n2, n3, _⟩ := hprev k (Nat.zero_le k) (by omega)
      rw [hq] at h'
      injection h' with h'
      subst h'
      rcases hT with hT | hT | hT
      · exact n1 hT
      · exact n2 hT
      · exact n3 hT
    constructor
    · intro hs
      have hkm := hterm (Or.inl hs)
      subst hkm
      refine ⟨?_, hqs⟩
      rcases hcases with ⟨e, he, _⟩ | ⟨st', _, _, herr⟩ | ⟨st', he, hst, _⟩ |
        ⟨st', he, n1, _⟩
      · rw [he] at hq; cases hq
      · exact herr
      · rw [he] at hq
        injection hq with hq
        subst hq
        rw [hs] at hst
        exact absurd hst (by decide)
      · rw [he] at hq
        injection hq with hq
        subst hq
        exact absurd hs n1
    · intro hs
      have hkm := hterm (Or.inr hs)
      subst hkm
      refine ⟨?_, hqs⟩
      rcases hcases with ⟨e, he, _⟩ | ⟨st', he, hst, _⟩ | ⟨st', he, _, herr⟩ |
        ⟨st', he, _, n2, n3, _⟩
      · rw [he] at hq; cases hq
      · rw [he] at hq
        injection hq with hq
        subst hq
        rw [hst] at hs
        exact absurd hs (by decide)
      · rw [he] at hq
        injection hq with hq
        subst hq
        exact herr
      · rw [he] at hq
        injection hq with hq
        subst hq
        rcases hs with hs | hs
        · exact absurd hs n2
        · exact absurd hs n3

/-- C14, at a gateway that answers "pending" once and then "SUCCESS", with a deadline of 5ms
that the first sleep of 10ms has passed when the second query is made: the result is success,
not the timeout error. -/
theorem WaitForCI_terminal_decides_witness :
    sleepClock [10 * Millisecond] > WaitForCI.timeout shortConfig ∧
      WaitForCI asciiToLower sleepClock 2 shortConfig (switchClient "pending" 1 "SUCCESS")
          "abc" =
        some ⟨none, 2, [10 * Millisecond]⟩ :=
  ⟨by decide,
    ((WaitForCI_terminal_decides asciiToLower sleepClock shortConfig
      (switchClient "pending" 1 "SUCCESS") "abc").2.1 1 ⟨"SUCCESS", "abc", 0, "", ""⟩
      (fun k hk => by
        have hk0 : k = 0 := by omega
        subst hk0
        exact ⟨⟨"pending", "abc", 0, "", ""⟩, rfl, by decide, by decide, by decide,
          by decide⟩)
      rfl).1 (by decide) 0⟩

end MergeFromMain
